import Mathlib

/-!
Verification of the orchestration core of `syedahafsa12/hackathon0`.

The Python source under `src/backend/src/` is shallowly embedded:
pure functions become Lean functions, the vault filesystem becomes an
explicit map from `(folder, filename)` to stored documents, the retry
executor becomes a recursion over the sequence of attempt outcomes, and
floats in the scheduler/dispatcher scoring become exact rationals.
-/

namespace Hackathon0

/-! ## A stable descending sort

Python's `list.sort(key=k, reverse=True)` is a stable sort: the result is
ordered by descending key and elements with equal keys keep their original
relative order.  `sortDesc` below is the unique function with that
behaviour (insertion sort that inserts each element before the first
element whose key is not strictly greater), used to embed
`Scheduler.prioritize_tasks` and `Dispatcher.find_agent`. -/

variable {α : Type}

def insertDesc (key : α → ℚ) (x : α) : List α → List α
  | [] => [x]
  | y :: ys => if key y > key x then y :: insertDesc key x ys else x :: y :: ys

def sortDesc (key : α → ℚ) : List α → List α
  | [] => []
  | x :: xs => insertDesc key x (sortDesc key xs)

/-- First element attaining the maximal key (Python `max`-by-fold with
strict replacement keeps the earliest maximum). -/
def pickBest (key : α → ℚ) : List α → Option α
  | [] => none
  | x :: xs =>
    match pickBest key xs with
    | none => some x
    | some b => if key b > key x then some b else some x

theorem insertDesc_perm (key : α → ℚ) (x : α) (l : List α) :
    List.Perm (insertDesc key x l) (x :: l) := by
  induction l with
  | nil => simp [insertDesc]
  | cons y ys ih =>
    by_cases h : key y > key x
    · simp only [insertDesc, if_pos h]
      exact (ih.cons y).trans (List.Perm.swap x y ys)
    · simp [insertDesc, if_neg h]

theorem sortDesc_perm (key : α → ℚ) (l : List α) :
    List.Perm (sortDesc key l) l := by
  induction l with
  | nil => simp [sortDesc]
  | cons x xs ih =>
    exact (insertDesc_perm key x (sortDesc key xs)).trans (ih.cons x)

theorem insertDesc_pairwise (key : α → ℚ) (x : α) (l : List α)
    (h : l.Pairwise (fun a b => key b ≤ key a)) :
    (insertDesc key x l).Pairwise (fun a b => key b ≤ key a) := by
  induction l with
  | nil => simp [insertDesc]
  | cons y ys ih =>
    rcases List.pairwise_cons.mp h with ⟨hy, hys⟩
    by_cases hxy : key y > key x
    · simp only [insertDesc, if_pos hxy]
      refine List.pairwise_cons.mpr ⟨?_, ih hys⟩
      intro a ha
      have : a ∈ x :: ys := (insertDesc_perm key x ys).mem_iff.mp ha
      rcases List.mem_cons.mp this with rfl | hmem
      · exact le_of_lt hxy
      · exact hy a hmem
    · simp only [insertDesc, if_neg hxy]
      refine List.pairwise_cons.mpr ⟨?_, h⟩
      intro a ha
      rcases List.mem_cons.mp ha with rfl | hmem
      · exact not_lt.mp hxy
      · exact le_trans (hy a hmem) (not_lt.mp hxy)

theorem sortDesc_pairwise (key : α → ℚ) (l : List α) :
    (sortDesc key l).Pairwise (fun a b => key b ≤ key a) := by
  induction l with
  | nil => simp [sortDesc]
  | cons x xs ih => exact insertDesc_pairwise key x (sortDesc key xs) ih

theorem insertDesc_filter_eq (key : α → ℚ) (x : α) (l : List α) (s : ℚ)
    (hx : key x = s) :
    (insertDesc key x l).filter (fun a => key a = s) =
      x :: l.filter (fun a => key a = s) := by
  induction l with
  | nil => simp [insertDesc, List.filter, hx]
  | cons y ys ih =>
    by_cases hxy : key y > key x
    · have hy : ¬ (key y = s) := by
        intro hcon
        rw [hx] at hxy
        rw [hcon] at hxy
        exact lt_irrefl s hxy
      simp only [insertDesc, if_pos hxy]
      rw [List.filter_cons, List.filter_cons]
      simp only [decide_eq_true_eq]
      rw [if_neg hy, if_neg hy]
      exact ih
    · simp only [insertDesc, if_neg hxy]
      rw [List.filter_cons (x := x)]
      simp only [decide_eq_true_eq]
      rw [if_pos hx]

theorem insertDesc_filter_ne (key : α → ℚ) (x : α) (l : List α) (s : ℚ)
    (hx : key x ≠ s) :
    (insertDesc key x l).filter (fun a => key a = s) =
      l.filter (fun a => key a = s) := by
  induction l with
  | nil => simp [insertDesc, List.filter, hx]
  | cons y ys ih =>
    by_cases hxy : key y > key x
    · simp only [insertDesc, if_pos hxy]
      rw [List.filter_cons, List.filter_cons]
      by_cases hy : key y = s
      · simp only [decide_eq_true_eq]
        rw [if_pos hy, if_pos hy, ih]
      · simp only [decide_eq_true_eq]
        rw [if_neg hy, if_neg hy, ih]
    · simp only [insertDesc, if_neg hxy]
      rw [List.filter_cons (x := x)]
      simp only [decide_eq_true_eq]
      rw [if_neg hx]

/-- Stability: the elements of any given score appear in `sortDesc` in the
same order as in the input. -/
theorem sortDesc_filter (key : α → ℚ) (l : List α) (s : ℚ) :
    (sortDesc key l).filter (fun a => key a = s) =
      l.filter (fun a => key a = s) := by
  induction l with
  | nil => simp [sortDesc]
  | cons x xs ih =>
    show (insertDesc key x (sortDesc key xs)).filter _ = _
    by_cases hx : key x = s
    · rw [insertDesc_filter_eq key x _ s hx, ih, List.filter_cons]
      simp only [decide_eq_true_eq]
      rw [if_pos hx]
    · rw [insertDesc_filter_ne key x _ s hx, ih, List.filter_cons]
      simp only [decide_eq_true_eq]
      rw [if_neg hx]

theorem sortDesc_eq_nil_iff (key : α → ℚ) (l : List α) :
    sortDesc key l = [] ↔ l = [] := by
  constructor
  · intro h
    have := (sortDesc_perm key l).length_eq
    rw [h] at this
    exact List.length_eq_zero.mp this.symm
  · intro h; rw [h]; rfl

theorem insertDesc_head? (key : α → ℚ) (x : α) (l : List α) :
    (insertDesc key x l).head? =
      match l with
      | [] => some x
      | y :: _ => if key y > key x then some y else some x := by
  cases l with
  | nil => rfl
  | cons y ys =>
    by_cases h : key y > key x
    · simp [insertDesc, if_pos h]
    · simp [insertDesc, if_neg h]

/-- The head of the stable descending sort is the first element attaining
the maximal key. -/
theorem sortDesc_head? (key : α → ℚ) (l : List α) :
    (sortDesc key l).head? = pickBest key l := by
  induction l with
  | nil => rfl
  | cons x xs ih =>
    show (insertDesc key x (sortDesc key xs)).head? = _
    rw [insertDesc_head?]
    cases hs : sortDesc key xs with
    | nil =>
      have hxs : xs = [] := (sortDesc_eq_nil_iff key xs).mp hs
      subst hxs
      rfl
    | cons y ys =>
      have hpb : pickBest key xs = some y := by
        rw [← ih, hs]; rfl
      show (if key y > key x then some y else some x) = pickBest key (x :: xs)
      rw [pickBest, hpb]

theorem pickBest_eq_none_iff (key : α → ℚ) (l : List α) :
    pickBest key l = none ↔ l = [] := by
  cases l with
  | nil => simp [pickBest]
  | cons x xs =>
    simp only [pickBest]
    cases pickBest key xs with
    | none => simp
    | some b =>
      by_cases h : key b > key x
      · simp [if_pos h]
      · simp [if_neg h]

/-- The element returned by `pickBest` is a member attaining the maximal
key, and it is the first such member: everything before it is strictly
smaller, everything after it no larger. -/
theorem pickBest_spec (key : α → ℚ) (l : List α) (b : α)
    (h : pickBest key l = some b) :
    ∃ l₁ l₂, l = l₁ ++ b :: l₂ ∧ (∀ a ∈ l₁, key a < key b) ∧
      (∀ a ∈ l₂, key a ≤ key b) := by
  induction l generalizing b with
  | nil => simp [pickBest] at h
  | cons x xs ih =>
    cases hpb : pickBest key xs with
    | none =>
      rw [pickBest, hpb] at h
      have hx : x = b := by
        simpa using h
      have hxs : xs = [] := (pickBest_eq_none_iff key xs).mp hpb
      subst hx; subst hxs
      exact ⟨[], [], rfl, by simp, by simp⟩
    | some c =>
      rw [pickBest, hpb] at h
      simp only [] at h
      rcases ih c hpb with ⟨m₁, m₂, hm, hlt, hle⟩
      by_cases hcx : key c > key x
      · rw [if_pos hcx] at h
        have hc : c = b := by simpa using h
        subst hc
        refine ⟨x :: m₁, m₂, by rw [hm]; rfl, ?_, hle⟩
        intro a ha
        rcases List.mem_cons.mp ha with rfl | hmem
        · exact hcx
        · exact hlt a hmem
      · rw [if_neg hcx] at h
        have hcx' : key c ≤ key x := not_lt.mp hcx
        have hx : x = b := by simpa using h
        subst hx
        refine ⟨[], xs, rfl, by simp, ?_⟩
        intro a ha
        rw [hm] at ha
        rcases List.mem_append.mp ha with h1 | h2
        · exact le_trans (le_of_lt (hlt a h1)) hcx'
        · rcases List.mem_cons.mp h2 with rfl | hmem
          · exact hcx'
          · exact le_trans (hle a hmem) hcx'

/-! ## Scheduler (`src/backend/src/core/ralphWiggum/scheduler.py`)

`Scheduler._calculate_score` and `Scheduler.prioritize_tasks`.  The clock
(`datetime.now()`) is passed explicitly as `now`; timestamps are rational
numbers of seconds, so `(datetime.now() - task.created_at).total_seconds()`
becomes `now - t.created_at`.  Python floats become exact rationals. -/

inductive Priority
  | low
  | medium
  | high
  | critical
deriving DecidableEq, Repr

structure AgentTask where
  id : String
  type : String
  priority : Priority
  created_at : ℚ
deriving DecidableEq, Repr

structure SchedulerConfig where
  priority_weights : Priority → ℚ
  age_weight : ℚ := 1/10
  starvation_threshold_ms : ℚ := 60000
  max_batch_size : Nat := 10

/-- The default weight dictionary built in `SchedulerConfig.__post_init__`.
It is total on `Priority`, so the `.get(task.priority, 25.0)` fallback in
`_calculate_score` never fires for it. -/
def defaultPriorityWeights : Priority → ℚ
  | .critical => 100
  | .high => 50
  | .medium => 25
  | .low => 10

def defaultSchedulerConfig : SchedulerConfig :=
  { priority_weights := defaultPriorityWeights }

/-- `Scheduler._calculate_score`. -/
def calculate_score (cfg : SchedulerConfig) (now : ℚ) (t : AgentTask) : ℚ :=
  let base := cfg.priority_weights t.priority
  let age_seconds := now - t.created_at
  let withAge := base + cfg.age_weight * age_seconds
  if t.priority = .low ∨ t.priority = .medium then
    let age_ms := age_seconds * 1000
    if age_ms > cfg.starvation_threshold_ms then
      withAge + ((age_ms - cfg.starvation_threshold_ms) / 1000) * 5
    else withAge
  else withAge

/-- `Scheduler.prioritize_tasks`: score every task, then
`scored_tasks.sort(key=lambda x: x[1], reverse=True)` — Python's stable
sort by descending score (the empty-batch early return coincides with
`sortDesc` on `[]`). -/
def prioritize_tasks (cfg : SchedulerConfig) (now : ℚ)
    (tasks : List AgentTask) : List AgentTask :=
  sortDesc (calculate_score cfg now) tasks

/-- The score formula exactly as claim C3 words it (default weights,
`age_weight = 0.1`, starvation bonus `5 · (age_ms − 60000)/1000` unless
the priority is critical/high or `age_ms ≤ 60000`).  Stated separately
from `calculate_score` so the two can be compared. -/
def claimScoreC3 (now : ℚ) (t : AgentTask) : ℚ :=
  defaultPriorityWeights t.priority + (1/10) * (now - t.created_at) +
    (if (t.priority = .critical ∨ t.priority = .high) ∨
        (now - t.created_at) * 1000 ≤ 60000 then 0
     else 5 * (((now - t.created_at) * 1000 - 60000) / 1000))

theorem calculate_score_eq_claimScoreC3 (now : ℚ) (t : AgentTask) :
    calculate_score defaultSchedulerConfig now t = claimScoreC3 now t := by
  unfold calculate_score claimScoreC3 defaultSchedulerConfig
  cases hp : t.priority <;> simp [hp, defaultPriorityWeights] <;>
    split_ifs <;>
    first
      | ring1
      | (exfalso
         rename_i hA hB
         exact absurd (le_of_not_lt hA) hB)
      | (exfalso
         rename_i hA hB
         exact absurd hA (not_lt.mpr hB))

/-- A critical task created at the clock instant (age 0, score 100). -/
def cexTaskCritical : AgentTask :=
  { id := "t1", type := "calendar:fetch", priority := .critical,
    created_at := 1000 }

/-- A high task created 500 s earlier (score 50 + 0.1·500 = 100). -/
def cexTaskHigh : AgentTask :=
  { id := "t2", type := "calendar:fetch", priority := .high,
    created_at := 500 }

/-- C3, counterexample.  Claim C3 says equal-score tasks are ordered by
`created_at` ascending.  At clock 1000 the two tasks below have equal
score 100, the high task is strictly older, yet `prioritize_tasks` leaves
the batch order `[critical, high]` unchanged: Python's
`sort(key=score, reverse=True)` is stable on the input order and never
consults `created_at` on ties, so the claimed order `[high, critical]` is
not produced. -/
theorem C3_counterexample :
    calculate_score defaultSchedulerConfig 1000 cexTaskCritical =
      calculate_score defaultSchedulerConfig 1000 cexTaskHigh ∧
    cexTaskHigh.created_at < cexTaskCritical.created_at ∧
    prioritize_tasks defaultSchedulerConfig 1000
        [cexTaskCritical, cexTaskHigh] =
      [cexTaskCritical, cexTaskHigh] := by
  refine ⟨?_, ?_, ?_⟩
  · norm_num [calculate_score, cexTaskCritical, cexTaskHigh,
      defaultSchedulerConfig, defaultPriorityWeights]
    decide
  · norm_num [cexTaskCritical, cexTaskHigh]
  · norm_num [prioritize_tasks, sortDesc, insertDesc, calculate_score,
      cexTaskCritical, cexTaskHigh, defaultSchedulerConfig,
      defaultPriorityWeights]
    decide

/-- C3 (amended): `prioritize_tasks` returns the batch reordered by
descending score, with the score formula of the claim (default weights
`critical:100, high:50, medium:25, low:10`, `age_weight = 0.1`,
starvation bonus `5·(age_ms − 60000)/1000` for low/medium tasks older
than 60 s); tasks with equal scores keep their original batch order
(the sort is stable), they are not reordered by `created_at`. -/
theorem C3_prioritize_tasks_amended (cfg : SchedulerConfig) (now : ℚ)
    (tasks : List AgentTask) :
    List.Perm (prioritize_tasks cfg now tasks) tasks ∧
    (prioritize_tasks cfg now tasks).Pairwise
      (fun a b => calculate_score cfg now b ≤ calculate_score cfg now a) ∧
    (∀ s : ℚ, (prioritize_tasks cfg now tasks).filter
        (fun t => calculate_score cfg now t = s) =
      tasks.filter (fun t => calculate_score cfg now t = s)) ∧
    (∀ t, calculate_score defaultSchedulerConfig now t = claimScoreC3 now t) :=
  ⟨sortDesc_perm _ tasks, sortDesc_pairwise _ tasks,
    fun s => sortDesc_filter _ tasks s,
    fun t => calculate_score_eq_claimScoreC3 now t⟩

/-! ## Dispatcher (`src/backend/src/core/ralphWiggum/dispatcher.py`)

`Dispatcher._calculate_agent_score` and `Dispatcher.find_agent`.  The
registry `self._agents` is a Python dict iterated in insertion order, so
it is embedded as a list of registered agents; each agent's entry carries
the stats and last health snapshot the dispatcher keeps for it.
`agent.can_handle(task)` only ever inspects the task, which the
dispatcher passes through opaquely, so it is embedded as a boolean
function of the task type. -/

structure AgentStats where
  tasks_dispatched : Nat
  tasks_completed : Nat
  tasks_failed : Nat
  current_load : Nat
  avg_execution_time_ms : ℚ

structure HealthSnapshot where
  healthy : Bool
deriving DecidableEq, Repr

structure RegisteredAgent where
  name : String
  can_handle : String → Bool
  stats : AgentStats
  health : Option HealthSnapshot

structure DispatcherConfig where
  prefer_healthy_agents : Bool := true
  load_balance : Bool := true
  max_agent_load : Nat := 3
deriving DecidableEq, Repr

def defaultDispatcherConfig : DispatcherConfig := {}

/-- `if self.config.prefer_healthy_agents and health:` then penalise when
`not health.healthy` — i.e. a health snapshot is recorded and says
unhealthy. -/
def knownUnhealthy : Option HealthSnapshot → Bool
  | some h => !h.healthy
  | none => false

/-- `Dispatcher._calculate_agent_score`: base 100, −50 health penalty,
load-balancing early return 0 at capacity else −10 per in-flight task,
`+20·completed/dispatched` once dispatched, speed bonus
`max 0 (10 − avg_ms/1000)` only when `avg_execution_time_ms > 0`, and a
final clamp `max 0`. -/
def calculate_agent_score (cfg : DispatcherConfig) (a : RegisteredAgent) : ℚ :=
  let s1 : ℚ := 100
  let s2 := if cfg.prefer_healthy_agents && knownUnhealthy a.health
    then s1 - 50 else s1
  if cfg.load_balance ∧ a.stats.current_load ≥ cfg.max_agent_load then 0
  else
    let s3 := if cfg.load_balance
      then s2 - (a.stats.current_load : ℚ) * 10 else s2
    let s4 := if a.stats.tasks_dispatched > 0
      then s3 + ((a.stats.tasks_completed : ℚ) / (a.stats.tasks_dispatched : ℚ)) * 20
      else s3
    let s5 := if a.stats.avg_execution_time_ms > 0
      then s4 + max 0 (10 - a.stats.avg_execution_time_ms / 1000)
      else s4
    max 0 s5

/-- The candidate list `Dispatcher.find_agent` builds: registered agents
(in registration order) that can handle the task and score strictly
positive. -/
def candidatesOf (cfg : DispatcherConfig) (ty : String)
    (agents : List RegisteredAgent) : List RegisteredAgent :=
  agents.filter (fun a => a.can_handle ty && decide (calculate_agent_score cfg a > 0))

/-- `Dispatcher.find_agent`: sort the candidates by score descending
(`candidates.sort(key=lambda x: x[1], reverse=True)` — stable) and take
the first; `None` when no candidate remains.  The source sorts
(agent, score) pairs by the second component; sorting the agents by their
score function is the same stable order. -/
def find_agent (cfg : DispatcherConfig) (agents : List RegisteredAgent)
    (ty : String) : Option RegisteredAgent :=
  (sortDesc (calculate_agent_score cfg) (candidatesOf cfg ty agents)).head?

/-- The score exactly as claim C4 words it: the speed bonus
`max(0, 10 − avg_execution_time_ms/1000)` is added unconditionally.
Stated separately from `calculate_agent_score` so the two can be
compared. -/
def claimAgentScoreC4 (cfg : DispatcherConfig) (a : RegisteredAgent) : ℚ :=
  if cfg.load_balance ∧ a.stats.current_load ≥ cfg.max_agent_load then 0
  else
    100 - (if cfg.prefer_healthy_agents && knownUnhealthy a.health then 50 else 0)
      - (if cfg.load_balance then (a.stats.current_load : ℚ) * 10 else 0)
      + (if a.stats.tasks_dispatched > 0
          then 20 * ((a.stats.tasks_completed : ℚ) / (a.stats.tasks_dispatched : ℚ))
          else 0)
      + max 0 (10 - a.stats.avg_execution_time_ms / 1000)

/-- `find_agent` as it would behave under the claimed score. -/
def claimFindAgentC4 (cfg : DispatcherConfig) (agents : List RegisteredAgent)
    (ty : String) : Option RegisteredAgent :=
  (sortDesc (claimAgentScoreC4 cfg)
    (agents.filter
      (fun a => a.can_handle ty && decide (claimAgentScoreC4 cfg a > 0)))).head?

/-- The amended score formula: identical to the claim's except that the
speed bonus applies only when `avg_execution_time_ms > 0`, and the result
is clamped below at 0. -/
def amendedAgentScoreC4 (cfg : DispatcherConfig) (a : RegisteredAgent) : ℚ :=
  if cfg.load_balance ∧ a.stats.current_load ≥ cfg.max_agent_load then 0
  else
    max 0
      (100 - (if cfg.prefer_healthy_agents && knownUnhealthy a.health then 50 else 0)
        - (if cfg.load_balance then (a.stats.current_load : ℚ) * 10 else 0)
        + (if a.stats.tasks_dispatched > 0
            then 20 * ((a.stats.tasks_completed : ℚ) / (a.stats.tasks_dispatched : ℚ))
            else 0)
        + (if a.stats.avg_execution_time_ms > 0
            then max 0 (10 - a.stats.avg_execution_time_ms / 1000)
            else 0))

theorem calculate_agent_score_eq_amended (cfg : DispatcherConfig)
    (a : RegisteredAgent) :
    calculate_agent_score cfg a = amendedAgentScoreC4 cfg a := by
  unfold calculate_agent_score amendedAgentScoreC4
  split_ifs <;> first
    | rfl
    | ring_nf

theorem find_agent_eq_pickBest (cfg : DispatcherConfig)
    (agents : List RegisteredAgent) (ty : String) :
    find_agent cfg agents ty =
      pickBest (calculate_agent_score cfg) (candidatesOf cfg ty agents) := by
  unfold find_agent
  exact sortDesc_head? _ _

/-- A fresh agent: never dispatched, `avg_execution_time_ms = 0`. -/
def cexAgentFresh : RegisteredAgent :=
  { name := "A", can_handle := fun _ => true,
    stats := ⟨0, 0, 0, 0, 0⟩, health := some ⟨true⟩ }

/-- An agent with one failed dispatch and a 1 ms average execution time. -/
def cexAgentSlow : RegisteredAgent :=
  { name := "B", can_handle := fun _ => true,
    stats := ⟨1, 0, 1, 0, 1⟩, health := some ⟨true⟩ }

/-- C4, counterexample.  Under the claimed formula the fresh agent A
scores 110 (unconditional speed bonus `max(0, 10 − 0/1000) = 10`) and
beats B at 109.999, but the code only grants the speed bonus when
`avg_execution_time_ms > 0`, so A scores 100 and the code selects B.
The claim's score formula therefore mispredicts the selection. -/
theorem C4_counterexample :
    (find_agent defaultDispatcherConfig [cexAgentFresh, cexAgentSlow] "t").map
        RegisteredAgent.name = some "B" ∧
    (claimFindAgentC4 defaultDispatcherConfig [cexAgentFresh, cexAgentSlow] "t").map
        RegisteredAgent.name = some "A" := by
  constructor
  · norm_num [find_agent, candidatesOf, calculate_agent_score, knownUnhealthy,
      cexAgentFresh, cexAgentSlow, defaultDispatcherConfig, sortDesc,
      insertDesc, List.filter]
  · norm_num [claimFindAgentC4, claimAgentScoreC4, knownUnhealthy,
      cexAgentFresh, cexAgentSlow, defaultDispatcherConfig, sortDesc,
      insertDesc, List.filter]

/-- S5 worker W1: advertises the type, healthy, load 0. -/
def cexW1 : RegisteredAgent :=
  { name := "W1", can_handle := fun ty => ty == "calendar:fetch",
    stats := ⟨0, 0, 0, 0, 0⟩, health := some ⟨true⟩ }

/-- S5 worker W2: advertises the type, healthy, load 3 (= max). -/
def cexW2 : RegisteredAgent :=
  { name := "W2", can_handle := fun ty => ty == "calendar:fetch",
    stats := ⟨0, 0, 0, 3, 0⟩, health := some ⟨true⟩ }

/-- S5 worker W3: advertises the type, unhealthy, load 0. -/
def cexW3 : RegisteredAgent :=
  { name := "W3", can_handle := fun ty => ty == "calendar:fetch",
    stats := ⟨0, 0, 0, 0, 0⟩, health := some ⟨false⟩ }

/-- C4 (amended): `find_agent` considers exactly the registered workers
whose `can_handle` holds and whose score is positive; the score is the
claim's formula amended so the speed bonus applies only when
`avg_execution_time_ms > 0` (and the total is clamped below at 0); a
candidate at `max_agent_load` (default 3) under `load_balance` is
ineligible (score 0); the first candidate attaining the maximal score is
returned (ties by registration order) and `none` is returned when no
candidate remains; in scenario S5 (W1 healthy load 0, W2 healthy load 3,
W3 unhealthy load 0) W1 is selected. -/
theorem C4_find_agent_amended (cfg : DispatcherConfig)
    (agents : List RegisteredAgent) (ty : String) :
    (find_agent cfg agents ty = none ↔ candidatesOf cfg ty agents = []) ∧
    (∀ b, find_agent cfg agents ty = some b →
      ∃ l₁ l₂, candidatesOf cfg ty agents = l₁ ++ b :: l₂ ∧
        (∀ a ∈ l₁, calculate_agent_score cfg a < calculate_agent_score cfg b) ∧
        (∀ a ∈ l₂, calculate_agent_score cfg a ≤ calculate_agent_score cfg b)) ∧
    (∀ a : RegisteredAgent, cfg.load_balance = true →
      a.stats.current_load ≥ cfg.max_agent_load →
      calculate_agent_score cfg a = 0) ∧
    (∀ a, calculate_agent_score cfg a = amendedAgentScoreC4 cfg a) ∧
    defaultDispatcherConfig.max_agent_load = 3 ∧
    (find_agent defaultDispatcherConfig [cexW1, cexW2, cexW3]
        "calendar:fetch").map RegisteredAgent.name = some "W1" := by
  refine ⟨?_, ?_, ?_, fun a => calculate_agent_score_eq_amended cfg a, rfl, ?_⟩
  · rw [find_agent_eq_pickBest, pickBest_eq_none_iff]
  · intro b hb
    rw [find_agent_eq_pickBest] at hb
    exact pickBest_spec _ _ b hb
  · intro a hl hload
    simp only [calculate_agent_score]
    rw [if_pos ⟨by rw [hl], hload⟩]
  · norm_num [find_agent, candidatesOf, calculate_agent_score, knownUnhealthy,
      cexW1, cexW2, cexW3, defaultDispatcherConfig, sortDesc, insertDesc,
      List.filter]

/-- Witness for C4: the empty registry yields no agent, the at-capacity
worker W2 scores 0, and the S5 registry selects W1. -/
theorem C4_find_agent_amended_witness :
    find_agent defaultDispatcherConfig [] "t" = none ∧
    calculate_agent_score defaultDispatcherConfig cexW2 = 0 ∧
    (find_agent defaultDispatcherConfig [cexW1, cexW2, cexW3]
        "calendar:fetch").map RegisteredAgent.name = some "W1" := by
  have h0 := C4_find_agent_amended defaultDispatcherConfig [] "t"
  have h5 := C4_find_agent_amended defaultDispatcherConfig
    [cexW1, cexW2, cexW3] "calendar:fetch"
  exact ⟨h0.1.mpr rfl, h5.2.2.1 cexW2 rfl (by decide), h5.2.2.2.2.2⟩

/-! ## Retry executor (`RalphWiggumLoop._execute_with_retry`,
`src/backend/src/core/ralphWiggum/loop.py`)

One run of the executor consumes a sequence of attempt outcomes: the
worker call either returns an `AgentResult`, times out
(`asyncio.TimeoutError`), or raises (`str(e) = msg`).  The embedding
returns the final result together with the number of worker calls made
and the list of back-off sleeps (in ms, in order) performed between
attempts. -/

structure AgentError where
  code : String
  message : String
  recoverable : Bool
  retry_after : Option Nat
deriving DecidableEq, Repr

structure AgentResult where
  success : Bool
  error : Option AgentError
deriving DecidableEq, Repr

inductive AttemptOutcome
  | result (r : AgentResult)
  | timeout
  | exn (msg : String)
deriving DecidableEq, Repr

structure RalphWiggumConfig where
  cycle_interval_ms : Nat := 5000
  max_concurrent_tasks : Nat := 3
  task_timeout_ms : Nat := 30000
  retry_attempts : Nat := 3
  retry_backoff_ms : Nat := 1000
deriving DecidableEq, Repr

def defaultRalphWiggumConfig : RalphWiggumConfig := {}

/-- Classify one attempt:
`if result.success or (result.error and not result.error.recoverable):
return result` — otherwise record `str(last_error)` and retry.  Timeouts
record `f"Task timed out after {task.timeout}ms"`; a missing error on a
failed result records `"Unknown error"`; a raised exception records its
message. -/
def classifyAttempt (timeoutMs : Nat) : AttemptOutcome → AgentResult ⊕ String
  | .result r =>
    if r.success then .inl r
    else
      match r.error with
      | some e => if e.recoverable then .inr e.message else .inl r
      | none => .inr "Unknown error"
  | .timeout => .inr ("Task timed out after " ++ toString timeoutMs ++ "ms")
  | .exn m => .inr m

/-- The synthetic failure built after the loop:
`AgentError(code="RETRY_EXHAUSTED",
message=f"Failed after {n} attempts: {last_error}", recoverable=False)`. -/
def retryExhausted (attempts : Nat) (lastMsg : String) : AgentResult :=
  { success := false,
    error := some
      { code := "RETRY_EXHAUSTED",
        message := "Failed after " ++ toString attempts ++ " attempts: " ++ lastMsg,
        recoverable := false,
        retry_after := none } }

/-- The `for attempt in range(retry_attempts)` loop: the list holds the
outcomes of the remaining permitted attempts, `backoff` the current
back-off, `last` the current `str(last_error)` (initially `str(None)`).
Sleeps happen only between attempts (`attempt < retry_attempts - 1`). -/
def retryRun (timeoutMs total : Nat) :
    List AttemptOutcome → Nat → String → AgentResult × Nat × List Nat
  | [], _, last => (retryExhausted total last, 0, [])
  | o :: rest, backoff, _ =>
    match classifyAttempt timeoutMs o with
    | .inl res => (res, 1, [])
    | .inr m =>
      match rest with
      | [] => (retryExhausted total m, 1, [])
      | r :: rs =>
        let sub := retryRun timeoutMs total (r :: rs) (backoff * 2) m
        (sub.1, sub.2.1 + 1, backoff :: sub.2.2)

/-- `RalphWiggumLoop._execute_with_retry`: at most
`config.retry_attempts` outcomes are consumed, starting from
`backoff_ms = config.retry_backoff_ms` and `last_error = None`. -/
def execute_with_retry (cfg : RalphWiggumConfig) (timeoutMs : Nat)
    (outcomes : List AttemptOutcome) : AgentResult × Nat × List Nat :=
  retryRun timeoutMs cfg.retry_attempts (outcomes.take cfg.retry_attempts)
    cfg.retry_backoff_ms "None"

/-- The doubling back-off sequence `[b, 2b, 4b, …]` of a given length. -/
def geoBackoff (b : Nat) : Nat → List Nat
  | 0 => []
  | k + 1 => b :: geoBackoff (b * 2) k

theorem retryRun_calls_le (timeoutMs total : Nat) (l : List AttemptOutcome)
    (b : Nat) (last : String) :
    (retryRun timeoutMs total l b last).2.1 ≤ l.length := by
  induction l generalizing b last with
  | nil => simp [retryRun]
  | cons o rest ih =>
    rw [retryRun]
    cases classifyAttempt timeoutMs o with
    | inl res => simp
    | inr m =>
      cases rest with
      | nil => simp
      | cons r rs =>
        simp only [List.length_cons]
        have := ih (b * 2) m
        simp only [List.length_cons] at this
        omega

theorem retryRun_calls_pos (timeoutMs total : Nat) (o : AttemptOutcome)
    (rest : List AttemptOutcome) (b : Nat) (last : String) :
    1 ≤ (retryRun timeoutMs total (o :: rest) b last).2.1 := by
  rw [retryRun]
  cases classifyAttempt timeoutMs o with
  | inl res => simp
  | inr m =>
    cases rest with
    | nil => simp
    | cons r rs => simp

theorem retryRun_sleeps_geo (timeoutMs total : Nat) (l : List AttemptOutcome)
    (b : Nat) (last : String) :
    (retryRun timeoutMs total l b last).2.2 =
      geoBackoff b ((retryRun timeoutMs total l b last).2.1 - 1) := by
  induction l generalizing b last with
  | nil => simp [retryRun, geoBackoff]
  | cons o rest ih =>
    rw [retryRun]
    cases classifyAttempt timeoutMs o with
    | inl res => simp [geoBackoff]
    | inr m =>
      cases rest with
      | nil => simp [geoBackoff]
      | cons r rs =>
        simp only []
        have hpos := retryRun_calls_pos timeoutMs total r rs (b * 2) m
        have := ih (b * 2) m
        rw [this]
        have hc : (retryRun timeoutMs total (r :: rs) (b * 2) m).2.1 + 1 - 1 =
            ((retryRun timeoutMs total (r :: rs) (b * 2) m).2.1 - 1) + 1 := by
          omega
        rw [hc, geoBackoff]

theorem retryRun_done (timeoutMs total : Nat) (pre : List AttemptOutcome)
    (o : AttemptOutcome) (rest : List AttemptOutcome) (b : Nat) (last : String)
    (res : AgentResult)
    (hpre : ∀ x ∈ pre, ∃ m, classifyAttempt timeoutMs x = .inr m)
    (ho : classifyAttempt timeoutMs o = .inl res) :
    retryRun timeoutMs total (pre ++ o :: rest) b last =
      (res, pre.length + 1, geoBackoff b pre.length) := by
  induction pre generalizing b last with
  | nil =>
    simp only [List.nil_append, List.length_nil]
    rw [retryRun, ho]
    rfl
  | cons x xs ih =>
    rcases hpre x (List.mem_cons_self x xs) with ⟨mx, hmx⟩
    have hxs : ∀ y ∈ xs, ∃ m, classifyAttempt timeoutMs y = .inr m :=
      fun y hy => hpre y (List.mem_cons_of_mem x hy)
    simp only [List.cons_append]
    rw [retryRun, hmx]
    cases hcons : xs ++ o :: rest with
    | nil => exact absurd hcons (by simp)
    | cons hd tl =>
      simp only [hcons]
      rw [← hcons, ih (b * 2) mx hxs]
      simp [geoBackoff]

theorem retryRun_exhaust (timeoutMs total : Nat) (pre : List AttemptOutcome)
    (o : AttemptOutcome) (b : Nat) (last : String) (mo : String)
    (hpre : ∀ x ∈ pre, ∃ m, classifyAttempt timeoutMs x = .inr m)
    (ho : classifyAttempt timeoutMs o = .inr mo) :
    retryRun timeoutMs total (pre ++ [o]) b last =
      (retryExhausted total mo, pre.length + 1, geoBackoff b pre.length) := by
  induction pre generalizing b last with
  | nil =>
    simp only [List.nil_append, List.length_nil]
    rw [retryRun, ho]
    rfl
  | cons x xs ih =>
    rcases hpre x (List.mem_cons_self x xs) with ⟨mx, hmx⟩
    have hxs : ∀ y ∈ xs, ∃ m, classifyAttempt timeoutMs y = .inr m :=
      fun y hy => hpre y (List.mem_cons_of_mem x hy)
    simp only [List.cons_append]
    rw [retryRun, hmx]
    cases hcons : xs ++ [o] with
    | nil => exact absurd hcons (by simp)
    | cons hd tl =>
      simp only [hcons]
      rw [← hcons, ih (b * 2) mx hxs]
      simp [geoBackoff]

/-- Removing `retry_after` from every error of a run's outcomes. -/
def scrubRetryAfter : AttemptOutcome → AttemptOutcome
  | .result r =>
    .result { r with error := r.error.map (fun e => { e with retry_after := none }) }
  | .timeout => .timeout
  | .exn m => .exn m

theorem classifyAttempt_scrub (timeoutMs : Nat) (o : AttemptOutcome) :
    classifyAttempt timeoutMs (scrubRetryAfter o) = classifyAttempt timeoutMs o ∨
    ∃ r, o = .result r ∧ classifyAttempt timeoutMs o = .inl r ∧
      classifyAttempt timeoutMs (scrubRetryAfter o) =
        .inl { r with error := r.error.map (fun e => { e with retry_after := none }) } := by
  cases o with
  | result r =>
    by_cases hs : r.success
    · exact Or.inr ⟨r, rfl, by simp [classifyAttempt, hs], by simp [classifyAttempt, scrubRetryAfter, hs]⟩
    · cases he : r.error with
      | none => exact Or.inl (by simp [classifyAttempt, scrubRetryAfter, hs, he])
      | some e =>
        by_cases hr : e.recoverable
        · exact Or.inl (by simp [classifyAttempt, scrubRetryAfter, hs, he, hr])
        · exact Or.inr ⟨r, rfl, by simp [classifyAttempt, hs, he, hr],
            by simp [classifyAttempt, scrubRetryAfter, hs, he, hr]⟩
  | timeout => exact Or.inl rfl
  | exn m => exact Or.inl rfl

theorem retryRun_scrub (timeoutMs total : Nat) (l : List AttemptOutcome)
    (b : Nat) (last : String) :
    (retryRun timeoutMs total (l.map scrubRetryAfter) b last).2 =
      (retryRun timeoutMs total l b last).2 := by
  induction l generalizing b last with
  | nil => rfl
  | cons o rest ih =>
    simp only [List.map_cons]
    rw [retryRun, retryRun]
    rcases classifyAttempt_scrub timeoutMs o with heq | ⟨r, _, hinl, hinl'⟩
    · rw [heq]
      cases classifyAttempt timeoutMs o with
      | inl res => rfl
      | inr m =>
        cases rest with
        | nil => rfl
        | cons r rs =>
          simp only [List.map_cons]
          have := ih (b * 2) m
          simp only [List.map_cons] at this
          simp only [this]
    · rw [hinl, hinl']

/-- C2: one run of the retry executor calls the worker's execute at most
`retry_attempts` (default 3) times; an attempt returning a success ends
the run with that result, an attempt returning an error with
`recoverable = false` ends the run immediately with that failure, in both
cases after exactly the attempts made so far; and when every permitted
attempt fails recoverably (including timeouts and thrown exceptions) the
run returns a synthetic failure with code `RETRY_EXHAUSTED` whose message
contains the last observed error message. -/
theorem C2_retry_executor (cfg : RalphWiggumConfig) (timeoutMs : Nat)
    (outcomes : List AttemptOutcome)
    (hlen : outcomes.length = cfg.retry_attempts) :
    defaultRalphWiggumConfig.retry_attempts = 3 ∧
    (execute_with_retry cfg timeoutMs outcomes).2.1 ≤ cfg.retry_attempts ∧
    (∀ pre r rest, outcomes = pre ++ .result r :: rest →
      (∀ x ∈ pre, ∃ m, classifyAttempt timeoutMs x = .inr m) →
      (r.success = true ∨ ∃ e, r.error = some e ∧ e.recoverable = false) →
      (execute_with_retry cfg timeoutMs outcomes).1 = r ∧
      (execute_with_retry cfg timeoutMs outcomes).2.1 = pre.length + 1) ∧
    (∀ pre o mo, outcomes = pre ++ [o] →
      (∀ x ∈ pre, ∃ m, classifyAttempt timeoutMs x = .inr m) →
      classifyAttempt timeoutMs o = .inr mo →
      (execute_with_retry cfg timeoutMs outcomes).1.success = false ∧
      ∃ e, (execute_with_retry cfg timeoutMs outcomes).1.error = some e ∧
        e.code = "RETRY_EXHAUSTED" ∧ e.recoverable = false ∧
        ∃ p, e.message = p ++ mo) := by
  have htake : outcomes.take cfg.retry_attempts = outcomes :=
    List.take_of_length_le (le_of_eq hlen)
  refine ⟨rfl, ?_, ?_, ?_⟩
  · exact le_trans (retryRun_calls_le _ _ _ _ _)
      (by rw [List.length_take]; exact min_le_left _ _)
  · intro pre r rest heq hpre hend
    have ho : classifyAttempt timeoutMs (.result r) = .inl r := by
      rcases hend with hs | ⟨e, he, hr⟩
      · simp [classifyAttempt, hs]
      · by_cases hs : r.success
        · simp [classifyAttempt, hs]
        · simp [classifyAttempt, hs, he, hr]
    unfold execute_with_retry
    rw [htake, heq, retryRun_done timeoutMs cfg.retry_attempts pre
      (.result r) rest cfg.retry_backoff_ms "None" r hpre ho]
    exact ⟨rfl, rfl⟩
  · intro pre o mo heq hpre ho
    unfold execute_with_retry
    rw [htake, heq, retryRun_exhaust timeoutMs cfg.retry_attempts pre o
      cfg.retry_backoff_ms "None" mo hpre ho]
    refine ⟨rfl, _, rfl, rfl, rfl,
      "Failed after " ++ toString cfg.retry_attempts ++ " attempts: ", rfl⟩

/-- One recoverable HTTP 503 failure (scenario S3's worker response). -/
def cexOutcome503 : AttemptOutcome :=
  .result
    { success := false,
      error := some
        { code := "HTTP_503", message := "Service Unavailable",
          recoverable := true, retry_after := none } }

/-- Witness for C2: three recoverable 503 failures with the default
config exhaust the three permitted attempts and produce the
`RETRY_EXHAUSTED` failure carrying the last message. -/
theorem C2_retry_executor_witness :
    (execute_with_retry defaultRalphWiggumConfig 30000
        [cexOutcome503, cexOutcome503, cexOutcome503]).2.1 ≤
      defaultRalphWiggumConfig.retry_attempts ∧
    (execute_with_retry defaultRalphWiggumConfig 30000
        [cexOutcome503, cexOutcome503, cexOutcome503]).1.success = false ∧
    ((execute_with_retry defaultRalphWiggumConfig 30000
        [cexOutcome503, cexOutcome503, cexOutcome503]).1.error.map
      AgentError.code) = some "RETRY_EXHAUSTED" := by
  have h := C2_retry_executor defaultRalphWiggumConfig 30000
    [cexOutcome503, cexOutcome503, cexOutcome503] rfl
  have hpre : ∀ x ∈ [cexOutcome503, cexOutcome503],
      ∃ m, classifyAttempt 30000 x = .inr m := by
    intro x hx
    have hx' : x = cexOutcome503 := by
      rcases List.mem_cons.mp hx with h1 | h2
      · exact h1
      · simpa using h2
    subst hx'
    exact ⟨"Service Unavailable", by simp [cexOutcome503, classifyAttempt]⟩
  obtain ⟨hsucc, e, he, hcode, _, _⟩ :=
    h.2.2.2 [cexOutcome503, cexOutcome503] cexOutcome503
      "Service Unavailable" rfl hpre
      (by simp [cexOutcome503, classifyAttempt])
  refine ⟨h.2.1, hsucc, ?_⟩
  rw [he]
  simp [hcode]

/-- A recoverable failure that asks to be retried after 5000 ms. -/
def cexOutcomeRetryAfter : AttemptOutcome :=
  .result
    { success := false,
      error := some
        { code := "HTTP_503", message := "slow",
          recoverable := true, retry_after := some 5000 } }

/-- C5, counterexample.  The first failed attempt carries
`retry_after = 5000`; claim C5 says the sleep before the next attempt is
then `max(1000, 5000) = 5000` ms, but the executor sleeps the plain
back-off `[1000, 2000]` — `retry_after` is never read. -/
theorem C5_counterexample :
    (execute_with_retry defaultRalphWiggumConfig 30000
        [cexOutcomeRetryAfter, cexOutcomeRetryAfter, cexOutcomeRetryAfter]).2.2 =
      [1000, 2000] ∧
    (1000 : Nat) ≠ max 1000 5000 := by
  constructor
  · rfl
  · decide

/-- C5 (amended): within one run the sleeps between attempts form the
doubling sequence `retry_backoff_ms, 2·retry_backoff_ms, …` (initial
value default 1000 ms), one sleep per non-final failed attempt; the
per-error `retry_after` is never consulted — removing it from every
outcome changes neither the number of calls nor the sleeps. -/
theorem C5_backoff_amended (cfg : RalphWiggumConfig) (timeoutMs : Nat)
    (outcomes : List AttemptOutcome) :
    defaultRalphWiggumConfig.retry_backoff_ms = 1000 ∧
    (execute_with_retry cfg timeoutMs outcomes).2.2 =
      geoBackoff cfg.retry_backoff_ms
        ((execute_with_retry cfg timeoutMs outcomes).2.1 - 1) ∧
    (execute_with_retry cfg timeoutMs (outcomes.map scrubRetryAfter)).2 =
      (execute_with_retry cfg timeoutMs outcomes).2 := by
  refine ⟨rfl, retryRun_sleeps_geo _ _ _ _ _, ?_⟩
  unfold execute_with_retry
  rw [← List.map_take]
  exact retryRun_scrub _ _ _ _ _

/-! ## Event bus (`src/backend/src/core/mcp/events.py`)

`EventBus.on` / `EventBus.emit` for synchronous subscribers (the async
dict is separate and only touched by `emit_async`).  `self._handlers` is
a Python dict — topic pattern → handler list, unique keys, insertion
order — embedded as an association list.  A handler is an id plus a body:
running the body transforms an abstract state and reports whether the
handler raised; `emit` wraps every call in `try/except`, so the raise
flag is observed, logged and ignored, and execution continues. -/

structure Handler (σ : Type) where
  hid : Nat
  run : σ → σ × Bool

abbrev Bus (σ : Type) := List (String × List (Handler σ))

/-- `pattern.endswith("*")`: the last character is `*`. -/
def endsWithStar (p : String) : Bool :=
  p.data.getLast? == some '*'

/-- `pattern.endswith("*") and event.startswith(pattern[:-1])`, at the
character level (`pattern[:-1]` drops the final character). -/
def wildcardMatch (p event : String) : Bool :=
  endsWithStar p && p.data.dropLast.isPrefixOf event.data

/-- `self._handlers[event]` when present (`if event in self._handlers`),
else the empty list. -/
def lookupHandlers {σ : Type} (bus : Bus σ) (event : String) :
    List (Handler σ) :=
  match bus.find? (fun kv => kv.1 == event) with
  | some kv => kv.2
  | none => []

/-- Run a handler list in order; every handler is invoked (ids recorded)
whether or not earlier handlers raised. -/
def runHandlers {σ : Type} : List (Handler σ) → σ → σ × List Nat
  | [], s => (s, [])
  | h :: t, s =>
    let r := h.run s
    let rest := runHandlers t r.1
    (rest.1, h.hid :: rest.2)

/-- `EventBus.emit`: first the exact-match handler list, then — iterating
the dict in order — every entry whose pattern ends in `*` and whose
pattern-minus-star is a prefix of the emitted topic (the filter inlines
the `if` of the Python loop).  Total function: the emitter always returns
normally. -/
def emit {σ : Type} (bus : Bus σ) (event : String) (s : σ) : σ × List Nat :=
  let afterExact := runHandlers (lookupHandlers bus event) s
  (bus.filter (fun kv => wildcardMatch kv.1 event)).foldl
    (fun acc kv =>
      let r := runHandlers kv.2 acc.1
      (r.1, acc.2 ++ r.2))
    afterExact

/-- `EventBus.on` for a sync handler: append to the topic's list,
creating the dict entry at the end on first registration. -/
def onEvent {σ : Type} : Bus σ → String → Handler σ → Bus σ
  | [], event, h => [(event, [h])]
  | kv :: rest, event, h =>
    if kv.1 = event then (kv.1, kv.2 ++ [h]) :: rest
    else kv :: onEvent rest event h

theorem runHandlers_ids {σ : Type} (hs : List (Handler σ)) (s : σ) :
    (runHandlers hs s).2 = hs.map Handler.hid := by
  induction hs generalizing s with
  | nil => rfl
  | cons h t ih => simp [runHandlers, ih]

theorem emit_foldl_ids {σ : Type} (l : List (String × List (Handler σ)))
    (acc : σ × List Nat) :
    (l.foldl (fun acc kv =>
        let r := runHandlers kv.2 acc.1
        (r.1, acc.2 ++ r.2)) acc).2 =
      acc.2 ++ l.flatMap (fun kv => kv.2.map Handler.hid) := by
  induction l generalizing acc with
  | nil => simp
  | cons kv t ih =>
    simp only [List.foldl_cons, List.flatMap_cons]
    rw [ih]
    simp [runHandlers_ids, List.append_assoc]

/-- The ids invoked by `emit`: exact matches first, then the handlers of
every wildcard-matching pattern in dict order. -/
theorem emit_ids {σ : Type} (bus : Bus σ) (event : String) (s : σ) :
    (emit bus event s).2 =
      (lookupHandlers bus event).map Handler.hid ++
        (bus.filter (fun kv => wildcardMatch kv.1 event)).flatMap
          (fun kv => kv.2.map Handler.hid) := by
  unfold emit
  rw [emit_foldl_ids]
  rw [runHandlers_ids]

theorem lookupHandlers_of_mem {σ : Type} (bus : Bus σ) (event : String)
    (hs : List (Handler σ)) (hnodup : (bus.map Prod.fst).Nodup)
    (hmem : (event, hs) ∈ bus) :
    lookupHandlers bus event = hs := by
  induction bus with
  | nil => simp at hmem
  | cons kv t ih =>
    rw [List.map_cons] at hnodup
    have hnd := List.nodup_cons.mp hnodup
    by_cases hk : kv.1 = event
    · have hkv : kv = (event, hs) := by
        rcases List.mem_cons.mp hmem with heq | htail
        · exact heq.symm
        · exfalso
          apply hnd.1
          rw [hk]
          exact List.mem_map.mpr ⟨(event, hs), htail, rfl⟩
      unfold lookupHandlers
      rw [List.find?_cons_of_pos _ (by simp [hk])]
      rw [hkv]
    · have htail : (event, hs) ∈ t := by
        rcases List.mem_cons.mp hmem with heq | htail
        · exact absurd (congrArg Prod.fst heq.symm) hk
        · exact htail
      unfold lookupHandlers
      rw [List.find?_cons_of_neg _ (by simp [hk])]
      exact ih hnd.2 htail

/-- Replace a handler's body by one performing the same state change and
then raising. -/
def crashHandler {σ : Type} (h : Handler σ) : Handler σ :=
  ⟨h.hid, fun s => ((h.run s).1, true)⟩

/-- Make every subscriber of the bus raise. -/
def raiseAll {σ : Type} (bus : Bus σ) : Bus σ :=
  bus.map (fun kv => (kv.1, kv.2.map crashHandler))

theorem lookupHandlers_raiseAll {σ : Type} (bus : Bus σ) (ev : String) :
    lookupHandlers (raiseAll bus) ev =
      (lookupHandlers bus ev).map crashHandler := by
  induction bus with
  | nil => rfl
  | cons kv t ih =>
    unfold raiseAll
    simp only [List.map_cons]
    unfold lookupHandlers
    cases hk : (kv.1 == ev) with
    | true =>
      rw [List.find?_cons_of_pos _ (by simpa using hk),
        List.find?_cons_of_pos _ (by simpa using hk)]
    | false =>
      rw [List.find?_cons_of_neg _ (by simp [hk]),
        List.find?_cons_of_neg _ (by simp [hk])]
      exact ih

theorem filter_raiseAll {σ : Type} (bus : Bus σ) (ev : String) :
    (raiseAll bus).filter (fun kv => wildcardMatch kv.1 ev) =
      ((bus.filter (fun kv => wildcardMatch kv.1 ev)).map
        (fun kv => (kv.1, kv.2.map crashHandler))) := by
  induction bus with
  | nil => rfl
  | cons kv t ih =>
    unfold raiseAll at *
    simp only [List.map_cons, List.filter_cons]
    cases hw : wildcardMatch kv.1 ev with
    | true => simp [hw, ih]
    | false => simp [hw, ih]

theorem emit_raiseAll_ids {σ : Type} (bus : Bus σ) (ev : String) (s : σ) :
    (emit (raiseAll bus) ev s).2 = (emit bus ev s).2 := by
  rw [emit_ids, emit_ids, lookupHandlers_raiseAll, filter_raiseAll]
  congr 1
  · rw [List.map_map]
    rfl
  · rw [List.flatMap_map]
    congr 1
    funext kv
    rw [List.map_map]
    rfl

/-- C7: `emit(topic, data)` invokes exactly the subscribers whose
registered topic matches the emitted topic exactly, or ends in `*` with
the star-stripped pattern a prefix of the emitted topic; no other
subscriber is invoked.  A raising subscriber is caught (`try/except`
around each call): the embedded `emit` is a total function — the emitter
always returns — and the invoked subscribers are unchanged even when
every subscriber raises. -/
theorem C7_emit_matching (σ : Type) (bus : Bus σ) (event : String) (s : σ)
    (hnodup : (bus.map Prod.fst).Nodup) :
    (∀ p hs h, (p, hs) ∈ bus → h ∈ hs →
      (p = event ∨ wildcardMatch p event = true) →
      h.hid ∈ (emit bus event s).2) ∧
    (∀ i, i ∈ (emit bus event s).2 →
      ∃ p hs h, (p, hs) ∈ bus ∧ h ∈ hs ∧ h.hid = i ∧
        (p = event ∨ wildcardMatch p event = true)) ∧
    (emit (raiseAll bus) event s).2 = (emit bus event s).2 := by
  refine ⟨?_, ?_, emit_raiseAll_ids bus event s⟩
  · intro p hs h hmem hh hmatch
    rw [emit_ids]
    rcases hmatch with heq | hw
    · subst heq
      exact List.mem_append_left _
        (by rw [lookupHandlers_of_mem bus p hs hnodup hmem]
            exact List.mem_map.mpr ⟨h, hh, rfl⟩)
    · exact List.mem_append_right _
        (List.mem_flatMap.mpr ⟨(p, hs),
          List.mem_filter.mpr ⟨hmem, by simpa using hw⟩,
          List.mem_map.mpr ⟨h, hh, rfl⟩⟩)
  · intro i hi
    rw [emit_ids] at hi
    rcases List.mem_append.mp hi with hex | hwild
    · cases hfind : bus.find? (fun kv => kv.1 == event) with
      | none =>
        rw [lookupHandlers, hfind] at hex
        simp at hex
      | some kv =>
        rw [lookupHandlers, hfind] at hex
        rcases List.mem_map.mp hex with ⟨h, hh, hhid⟩
        refine ⟨kv.1, kv.2, h, by simpa using List.mem_of_find?_eq_some hfind,
          hh, hhid, Or.inl ?_⟩
        have := List.find?_some hfind
        simpa using this
    · rcases List.mem_flatMap.mp hwild with ⟨kv, hkv, hmem⟩
      rcases List.mem_map.mp hmem with ⟨h, hh, hhid⟩
      rcases List.mem_filter.mp hkv with ⟨hbus, hcond⟩
      exact ⟨kv.1, kv.2, h, by simpa using hbus, hh, hhid,
        Or.inr (by simpa using hcond)⟩

def cexHandler1 : Handler Nat := ⟨1, fun s => (s + 1, false)⟩

def cexHandler2 : Handler Nat := ⟨2, fun s => (s * 2, true)⟩

def cexHandler3 : Handler Nat := ⟨3, fun s => (s, false)⟩

/-- A concrete bus: an exact subscriber on `task:completed`, a raising
wildcard subscriber on `task:*`, and an unrelated subscriber. -/
def cexBus : Bus Nat :=
  [("task:completed", [cexHandler1]),
   ("task:*", [cexHandler2]),
   ("loop:cycle", [cexHandler3])]

/-- Witness for C7: emitting `task:completed` on the concrete bus invokes
the raising wildcard subscriber (id 2), and making every subscriber raise
leaves the invoked set unchanged. -/
theorem C7_emit_matching_witness :
    (2 : Nat) ∈ (emit cexBus "task:completed" (0 : Nat)).2 ∧
    (emit (raiseAll cexBus) "task:completed" (0 : Nat)).2 =
      (emit cexBus "task:completed" (0 : Nat)).2 := by
  have h := C7_emit_matching Nat cexBus "task:completed" 0 (by decide)
  refine ⟨?_, h.2.2⟩
  exact h.1 "task:*" [cexHandler2] cexHandler2 (by simp [cexBus])
    (List.mem_singleton.mpr rfl) (Or.inr (by decide))

/-! ## Vault (`src/backend/src/core/mcp/vault.py`)

The vault filesystem is a map from folder × filename to the stored JSON
document (`filename` stands for the file's `<id>.json` name; renames via
`os.replace` overwrite the target).  A stored document is its top-level
JSON fields plus the `_vault_metadata` entry, kept apart from the other
keys; timestamps (`datetime.now().isoformat()`) are abstracted to a `Nat`
clock passed explicitly. -/

inductive VaultFolder
  | plans
  | needs_action
  | done
  | pending_approval
  | approved
  | rejected
  | logs
deriving DecidableEq, Repr

inductive JVal
  | null
  | str (s : String)
  | num (n : Int)
  | bool (b : Bool)
deriving DecidableEq, Repr

structure VaultMeta where
  created_at : Nat
  modified_at : Nat
  folder : VaultFolder
deriving DecidableEq, Repr

structure StoredDoc where
  content : List (String × JVal)
  meta : Option VaultMeta
deriving DecidableEq, Repr

def Vault := VaultFolder → String → Option StoredDoc

/-- `write_atomic_async` to `<folder>/<id>.json`: `os.replace` installs
the new content, overwriting any existing target. -/
def Vault.set (v : Vault) (f : VaultFolder) (id : String)
    (d : StoredDoc) : Vault :=
  fun g j => if g = f ∧ j = id then some d else v g j

/-- `path.unlink()`. -/
def Vault.erase (v : Vault) (f : VaultFolder) (id : String) : Vault :=
  fun g j => if g = f ∧ j = id then none else v g j

/-- One `content[key] = val` step of a Python dict: replace in place if
the key exists (keeping its position), else append. -/
def setField : List (String × JVal) → String → JVal → List (String × JVal)
  | [], k, val => [(k, val)]
  | (k', v') :: rest, k, val =>
    if k' = k then (k', val) :: rest else (k', v') :: setField rest k val

/-- `content.update(update_content)`. -/
def dictUpdate (content patch : List (String × JVal)) :
    List (String × JVal) :=
  patch.foldl (fun acc kv => setField acc kv.1 kv.2) content

/-- `content.get(key)` on the embedded dict. -/
def lookupField (content : List (String × JVal)) (k : String) : Option JVal :=
  (content.find? (fun kv => kv.1 == k)).map Prod.snd

/-- `VaultManager.create_file`: stamp fresh metadata
(`created_at = modified_at = now`, `folder`) and write atomically;
`os.replace` silently overwrites an existing `<id>.json`.  Returns the
created file; the operation has no already-exists failure path. -/
def create_file (now : Nat) (v : Vault) (folder : VaultFolder) (id : String)
    (content : List (String × JVal)) : StoredDoc × Vault :=
  let doc : StoredDoc := ⟨content, some ⟨now, now, folder⟩⟩
  (doc, v.set folder id doc)

/-- `VaultManager.move_file`: if the source is missing return `None`;
otherwise read it, merge the patch (`content.update(update_content)`),
restamp `_vault_metadata` (`modified_at = now`, `folder = to`, creating
the metadata when absent), write the destination atomically, then unlink
the source. -/
def move_file (now : Nat) (v : Vault) (id : String)
    (from_folder to_folder : VaultFolder) (patch : List (String × JVal)) :
    Option StoredDoc × Vault :=
  match v from_folder id with
  | none => (none, v)
  | some d =>
    let content := dictUpdate d.content patch
    let meta : VaultMeta :=
      match d.meta with
      | some m => { m with modified_at := now, folder := to_folder }
      | none => { created_at := now, modified_at := now, folder := to_folder }
    let doc : StoredDoc := ⟨content, some meta⟩
    (some doc, (v.set to_folder id doc).erase from_folder id)

/-- A document sitting in `Needs_Action`. -/
def cexDocC1 : StoredDoc :=
  ⟨[("k", .str "v")], some ⟨5, 5, .needs_action⟩⟩

/-- A vault whose only file is `Needs_Action/t1.json`. -/
def cexVaultC1 : Vault :=
  fun g j => if g = .needs_action ∧ j = "t1" then some cexDocC1 else none

/-- C1, counterexample.  The claim quantifies over every pair of folders.
For `from = to` the code writes the patched file to the destination path
(the same path) and then unlinks the source path — the same path — so the
"successful" move deletes the document: afterwards no copy exists
anywhere, not one copy at the destination. -/
theorem C1_counterexample :
    (move_file 6 cexVaultC1 "t1" .needs_action .needs_action []).1.isSome =
      true ∧
    ∀ g : VaultFolder,
      (move_file 6 cexVaultC1 "t1" .needs_action .needs_action []).2 g "t1" =
        none := by
  constructor
  · rfl
  · intro g
    cases g <;> rfl

/-- C1 (amended): for every pair of **distinct** folders `from ≠ to`:
a missing source yields not-found and leaves the vault untouched; a
present source yields success, with the destination fully materialised
with the patched content and restamped metadata, the source removed, and
every other file untouched — in particular, if the id existed only at the
source beforehand, exactly one copy exists afterwards, at the
destination. -/
theorem C1_move_file_amended (now : Nat) (v : Vault) (id : String)
    (f t : VaultFolder) (patch : List (String × JVal)) (hft : f ≠ t) :
    (v f id = none → move_file now v id f t patch = (none, v)) ∧
    (∀ d, v f id = some d →
      ∃ newDoc,
        (move_file now v id f t patch).1 = some newDoc ∧
        newDoc.content = dictUpdate d.content patch ∧
        (∃ m, newDoc.meta = some m ∧ m.folder = t ∧ m.modified_at = now) ∧
        (move_file now v id f t patch).2 t id = some newDoc ∧
        (move_file now v id f t patch).2 f id = none ∧
        (∀ g j, ¬(g = f ∧ j = id) → ¬(g = t ∧ j = id) →
          (move_file now v id f t patch).2 g j = v g j) ∧
        ((∀ g, g ≠ f → v g id = none) →
          ∀ g, (move_file now v id f t patch).2 g id =
            if g = t then some newDoc else none)) := by
  constructor
  · intro hnone
    unfold move_file
    rw [hnone]
  · intro d hd
    unfold move_file
    rw [hd]
    refine ⟨_, rfl, rfl, ⟨_, rfl, ?_, ?_⟩, ?_, ?_, ?_, ?_⟩
    · cases d.meta <;> rfl
    · cases d.meta <;> rfl
    · show Vault.erase _ f id t id = _
      unfold Vault.erase Vault.set
      rw [if_neg (fun hc => hft hc.1.symm), if_pos ⟨rfl, rfl⟩]
    · show Vault.erase _ f id f id = _
      unfold Vault.erase
      rw [if_pos ⟨rfl, rfl⟩]
    · intro g j hgf hgt
      show Vault.erase _ f id g j = _
      unfold Vault.erase Vault.set
      rw [if_neg hgf, if_neg hgt]
    · intro honly g
      by_cases hgt : g = t
      · subst hgt
        rw [if_pos rfl]
        show Vault.erase _ f id g id = _
        unfold Vault.erase Vault.set
        rw [if_neg (fun hc => hft hc.1.symm), if_pos ⟨rfl, rfl⟩]
      · rw [if_neg hgt]
        show Vault.erase _ f id g id = _
        unfold Vault.erase Vault.set
        by_cases hgf : g = f
        · rw [if_pos ⟨hgf, rfl⟩]
        · rw [if_neg (fun hc => hgf hc.1), if_neg (fun hc => hgt hc.1)]
          exact honly g hgf

/-- Witness for C1 (amended): moving `Needs_Action/t1.json` to `Done`
succeeds, and afterwards the document sits exactly once, in `Done`. -/
theorem C1_move_file_amended_witness :
    (move_file 6 cexVaultC1 "t1" .needs_action .done []).2 .done "t1" =
      (move_file 6 cexVaultC1 "t1" .needs_action .done []).1 ∧
    (move_file 6 cexVaultC1 "t1" .needs_action .done []).2 .needs_action
      "t1" = none ∧
    (move_file 6 cexVaultC1 "t1" .needs_action .done []).2 .plans "t1" =
      none := by
  obtain ⟨nd, h1, _, _, h4, h5, _, h7⟩ :=
    (C1_move_file_amended 6 cexVaultC1 "t1" .needs_action .done []
      (by decide)).2 cexDocC1 rfl
  have honly : ∀ g, g ≠ VaultFolder.needs_action →
      cexVaultC1 g "t1" = none := by
    intro g hg
    unfold cexVaultC1
    rw [if_neg (fun hc => hg hc.1)]
  have hplans := h7 honly .plans
  rw [if_neg (by decide)] at hplans
  exact ⟨by rw [h4, h1], h5, hplans⟩

/-- C10: `create_file` has no already-exists check: writing `(folder, id)`
twice succeeds both times (the operation is total and always returns the
created file), and leaves exactly one document at `(folder, id)` holding
the second content with metadata stamped fresh at the second write
(`created_at = modified_at = now₂`); nothing else is touched. -/
theorem C10_create_file_overwrites (now1 now2 : Nat) (v : Vault)
    (folder : VaultFolder) (id : String)
    (c1 c2 : List (String × JVal)) :
    (create_file now1 v folder id c1).1 = ⟨c1, some ⟨now1, now1, folder⟩⟩ ∧
    (create_file now2 (create_file now1 v folder id c1).2 folder id c2).1 =
      ⟨c2, some ⟨now2, now2, folder⟩⟩ ∧
    (create_file now2 (create_file now1 v folder id c1).2 folder id c2).2
        folder id = some ⟨c2, some ⟨now2, now2, folder⟩⟩ ∧
    (∀ g j, ¬(g = folder ∧ j = id) →
      (create_file now2 (create_file now1 v folder id c1).2 folder id c2).2
          g j = v g j) := by
  refine ⟨rfl, rfl, ?_, ?_⟩
  · show Vault.set _ folder id _ folder id = _
    unfold Vault.set
    rw [if_pos ⟨rfl, rfl⟩]
  · intro g j hgj
    show Vault.set _ folder id _ g j = _
    unfold Vault.set
    rw [if_neg hgj]
    show Vault.set _ folder id _ g j = _
    unfold Vault.set
    rw [if_neg hgj]

/-- Witness for C10: two writes to `Plans/p.json` on the empty vault leave
the second content, and an untouched location stays empty. -/
theorem C10_create_file_overwrites_witness :
    (create_file 1 (fun _ _ => none) .plans "p" [("a", .num 1)]).1 =
      ⟨[("a", .num 1)], some ⟨1, 1, .plans⟩⟩ ∧
    (create_file 2 (create_file 1 (fun _ _ => none) .plans "p"
        [("a", .num 1)]).2 .plans "p" [("b", .num 2)]).1 =
      ⟨[("b", .num 2)], some ⟨2, 2, .plans⟩⟩ ∧
    (create_file 2 (create_file 1 (fun _ _ => none) .plans "p"
        [("a", .num 1)]).2 .plans "p" [("b", .num 2)]).2 .plans "p" =
      some ⟨[("b", .num 2)], some ⟨2, 2, .plans⟩⟩ ∧
    (create_file 2 (create_file 1 (fun _ _ => none) .plans "p"
        [("a", .num 1)]).2 .plans "p" [("b", .num 2)]).2 .done "p" =
      (fun _ _ => none : Vault) .done "p" := by
  have h := C10_create_file_overwrites 1 2 (fun _ _ => none) .plans "p"
    [("a", .num 1)] [("b", .num 2)]
  exact ⟨h.1, h.2.1, h.2.2.1, h.2.2.2 .done "p" (by decide)⟩

/-! ## Approval workflow (`src/backend/src/agents/approval/watcher.py`)

`ApprovalWatcher._approve` and `ApprovalWatcher._reject`: patch the
document and move it out of `Pending_Approval` via
`VaultManager.move_file`; a missing source yields a `NOT_FOUND` failure;
a successful move emits `approval:resolved` with the new status.
`task.payload.get("notes")` / `task.payload.get("reason")` return Python
`None` when absent, which lands in the patch as JSON `null`. -/

structure ApprovalOutcome where
  success : Bool
  errorCode : Option String
  vault : Vault
  events : List (String × String)

/-- The `update_content` dict built by `_approve`. -/
def approvePatch (now : Nat) (approver_id : String) (notes : Option String) :
    List (String × JVal) :=
  [("status", .str "approved"),
   ("approved_at", .num now),
   ("approver_id", .str approver_id),
   ("approval_notes", match notes with | some s => .str s | none => .null)]

/-- `ApprovalWatcher._approve`. -/
def approveOp (now : Nat) (v : Vault) (approval_id approver_id : String)
    (notes : Option String) : ApprovalOutcome :=
  let r := move_file now v approval_id .pending_approval .approved
    (approvePatch now approver_id notes)
  match r.1 with
  | none => ⟨false, some "NOT_FOUND", r.2, []⟩
  | some _ => ⟨true, none, r.2, [("approval:resolved", "approved")]⟩

/-- The `update_content` dict built by `_reject`. -/
def rejectPatch (now : Nat) (rejector_id : String) (reason : Option String) :
    List (String × JVal) :=
  [("status", .str "rejected"),
   ("rejected_at", .num now),
   ("rejector_id", .str rejector_id),
   ("rejection_reason", match reason with | some s => .str s | none => .null)]

/-- `ApprovalWatcher._reject`: identical shape, destination `Rejected`. -/
def rejectOp (now : Nat) (v : Vault) (approval_id rejector_id : String)
    (reason : Option String) : ApprovalOutcome :=
  let r := move_file now v approval_id .pending_approval .rejected
    (rejectPatch now rejector_id reason)
  match r.1 with
  | none => ⟨false, some "NOT_FOUND", r.2, []⟩
  | some _ => ⟨true, none, r.2, [("approval:resolved", "rejected")]⟩

/-- The `required` list of the `approval:reject` capability declared in
`ApprovalWatcher._get_capabilities`. -/
def rejectRequiredFields : List String := ["approval_id", "reason"]

theorem lookupField_setField_self (c : List (String × JVal)) (k : String)
    (val : JVal) : lookupField (setField c k val) k = some val := by
  induction c with
  | nil => simp [setField, lookupField]
  | cons kv rest ih =>
    by_cases hk : kv.1 = k
    · unfold setField
      rw [if_pos hk]
      unfold lookupField
      rw [List.find?_cons_of_pos _ (by simpa using hk)]
      rfl
    · unfold setField
      rw [if_neg hk]
      unfold lookupField
      rw [List.find?_cons_of_neg _ (by simpa using hk)]
      exact ih

theorem lookupField_setField_other (c : List (String × JVal)) (k k' : String)
    (val : JVal) (h : k' ≠ k) :
    lookupField (setField c k val) k' = lookupField c k' := by
  induction c with
  | nil =>
    unfold setField lookupField
    rw [List.find?_cons_of_neg _ (by simpa using fun hc => h hc.symm)]
  | cons kv rest ih =>
    by_cases hk : kv.1 = k
    · have hk' : kv.1 ≠ k' := fun hc => h (hc.symm.trans hk)
      unfold setField
      rw [if_pos hk]
      unfold lookupField
      rw [List.find?_cons_of_neg _ (by simpa using hk'),
        List.find?_cons_of_neg _ (by simpa using hk')]
    · unfold setField
      rw [if_neg hk]
      by_cases hk' : kv.1 = k'
      · unfold lookupField
        rw [List.find?_cons_of_pos _ (by simpa using hk'),
          List.find?_cons_of_pos _ (by simpa using hk')]
      · unfold lookupField
        rw [List.find?_cons_of_neg _ (by simpa using hk'),
          List.find?_cons_of_neg _ (by simpa using hk')]
        exact ih

theorem approveOp_not_found (now : Nat) (v : Vault) (aid approver : String)
    (notes : Option String) (h : v .pending_approval aid = none) :
    approveOp now v aid approver notes = ⟨false, some "NOT_FOUND", v, []⟩ := by
  unfold approveOp move_file
  rw [h]

/-- C6: for an id present in `Pending_Approval`, approve moves the
document to `Approved`, patching in `status = "approved"`, `approved_at`,
`approver_id` and the notes, and emits `approval:resolved`; for an id not
present, approve fails with `NOT_FOUND` — hence a second approve of the
same id after a successful first one returns `NOT_FOUND`. -/
theorem C6_approve (now now2 : Nat) (v : Vault)
    (aid approver approver2 : String) (notes notes2 : Option String) :
    (v .pending_approval aid = none →
      approveOp now v aid approver notes = ⟨false, some "NOT_FOUND", v, []⟩) ∧
    (∀ d, v .pending_approval aid = some d →
      (approveOp now v aid approver notes).success = true ∧
      (approveOp now v aid approver notes).events =
        [("approval:resolved", "approved")] ∧
      (∃ newDoc,
        (approveOp now v aid approver notes).vault .approved aid =
          some newDoc ∧
        newDoc.content = dictUpdate d.content (approvePatch now approver notes) ∧
        lookupField newDoc.content "status" = some (.str "approved") ∧
        lookupField newDoc.content "approved_at" = some (.num now) ∧
        lookupField newDoc.content "approver_id" = some (.str approver) ∧
        lookupField newDoc.content "approval_notes" =
          some (match notes with | some s => .str s | none => .null)) ∧
      (approveOp now v aid approver notes).vault .pending_approval aid =
        none ∧
      (approveOp now2 (approveOp now v aid approver notes).vault aid
          approver2 notes2).success = false ∧
      (approveOp now2 (approveOp now v aid approver notes).vault aid
          approver2 notes2).errorCode = some "NOT_FOUND") := by
  have hlookups : ∀ c : List (String × JVal),
      lookupField (dictUpdate c (approvePatch now approver notes)) "status" =
        some (.str "approved") ∧
      lookupField (dictUpdate c (approvePatch now approver notes))
        "approved_at" = some (.num now) ∧
      lookupField (dictUpdate c (approvePatch now approver notes))
        "approver_id" = some (.str approver) ∧
      lookupField (dictUpdate c (approvePatch now approver notes))
        "approval_notes" =
        some (match notes with | some s => .str s | none => .null) := by
    intro c
    unfold dictUpdate approvePatch
    simp only [List.foldl_cons, List.foldl_nil]
    refine ⟨?_, ?_, ?_, ?_⟩
    · rw [lookupField_setField_other _ _ _ _ (by decide),
        lookupField_setField_other _ _ _ _ (by decide),
        lookupField_setField_other _ _ _ _ (by decide),
        lookupField_setField_self]
    · rw [lookupField_setField_other _ _ _ _ (by decide),
        lookupField_setField_other _ _ _ _ (by decide),
        lookupField_setField_self]
    · rw [lookupField_setField_other _ _ _ _ (by decide),
        lookupField_setField_self]
    · rw [lookupField_setField_self]
  constructor
  · exact approveOp_not_found now v aid approver notes
  · intro d hd
    have hpend : (approveOp now v aid approver notes).vault .pending_approval
        aid = none := by
      unfold approveOp move_file
      rw [hd]
      show Vault.erase _ .pending_approval aid .pending_approval aid = none
      unfold Vault.erase
      rw [if_pos ⟨rfl, rfl⟩]
    have happ : (approveOp now v aid approver notes).vault .approved aid =
        some ⟨dictUpdate d.content (approvePatch now approver notes),
          some (match d.meta with
            | some m => { m with modified_at := now, folder := .approved }
            | none => ⟨now, now, .approved⟩)⟩ := by
      simp [approveOp, move_file, hd, Vault.erase, Vault.set]
    refine ⟨?_, ?_,
      ⟨_, happ, rfl, (hlookups d.content).1, (hlookups d.content).2.1,
        (hlookups d.content).2.2.1, (hlookups d.content).2.2.2⟩,
      hpend, ?_, ?_⟩
    · unfold approveOp move_file
      rw [hd]
    · unfold approveOp move_file
      rw [hd]
    · rw [approveOp_not_found now2 _ aid approver2 notes2 hpend]
    · rw [approveOp_not_found now2 _ aid approver2 notes2 hpend]

/-- A vault whose only file is `Pending_Approval/a1.json`. -/
def cexVaultPending : Vault :=
  fun g j =>
    if g = .pending_approval ∧ j = "a1" then
      some ⟨[("summary", .str "send email"), ("status", .str "pending")],
        some ⟨1, 1, .pending_approval⟩⟩
    else none

/-- Witness for C6: approving the concrete pending document succeeds and
a second approve of the same id returns `NOT_FOUND`. -/
theorem C6_approve_witness :
    (approveOp 2 cexVaultPending "a1" "alice" none).success = true ∧
    (approveOp 3 (approveOp 2 cexVaultPending "a1" "alice" none).vault "a1"
        "bob" none).errorCode = some "NOT_FOUND" := by
  have h := (C6_approve 2 3 cexVaultPending "a1" "alice" "bob" none none).2
    ⟨[("summary", .str "send email"), ("status", .str "pending")],
      some ⟨1, 1, .pending_approval⟩⟩ rfl
  exact ⟨h.1, h.2.2.2.2.2⟩

/-- C8, evaluated at the failing input.  The `approval:reject` capability
declares `reason` among its required fields, but `_reject` never checks
it: a reject request with no reason still succeeds, moving the concrete
pending document to `Rejected` with `rejection_reason = null` — the code
contradicts its own capability declaration (and the spec). -/
theorem C8_reject_without_reason :
    "reason" ∈ rejectRequiredFields ∧
    (rejectOp 2 cexVaultPending "a1" "u1" none).success = true ∧
    (∃ d, (rejectOp 2 cexVaultPending "a1" "u1" none).vault .rejected "a1" =
        some d ∧
      lookupField d.content "rejection_reason" = some .null ∧
      lookupField d.content "status" = some (.str "rejected")) ∧
    (rejectOp 2 cexVaultPending "a1" "u1" none).vault .pending_approval
      "a1" = none := by
  exact ⟨by decide, rfl,
    ⟨⟨[("summary", .str "send email"), ("status", .str "rejected"),
        ("rejected_at", .num 2), ("rejector_id", .str "u1"),
        ("rejection_reason", .null)], some ⟨1, 2, .rejected⟩⟩,
      rfl, rfl, rfl⟩, rfl⟩

/-! ## Loop lifecycle (`RalphWiggumLoop.start`,
`src/backend/src/core/ralphWiggum/loop.py`)

`start` early-returns (warn only) when `self.state.status == RUNNING`; in
every other status it clears the error and the stop event, sets the pause
event, initialises the vault, spawns the driver task, and emits
`loop:cycle` with action `started`.  The embedding records the resulting
lifecycle flags and the observable effects of one `start` call. -/

inductive LoopStatus
  | running
  | paused
  | stopped
deriving DecidableEq, Repr

structure LoopStartState where
  status : LoopStatus
  error : Option String
  stop_event_set : Bool
  pause_event_set : Bool
deriving DecidableEq, Repr

structure StartEffects where
  state : LoopStartState
  vault_initialized : Bool
  driver_spawned : Bool
  events : List (String × String)
deriving DecidableEq, Repr

/-- `RalphWiggumLoop.start`. -/
def loopStart (s : LoopStartState) : StartEffects :=
  if s.status = .running then ⟨s, false, false, []⟩
  else
    ⟨{ status := .running, error := none,
       stop_event_set := false, pause_event_set := true },
      true, true, [("loop:cycle", "started")]⟩

/-- C9, counterexample.  The claim says `start` requires status
`stopped`, so in `paused` it must neither spawn a driver nor change the
status — but the code's guard only tests `RUNNING`: called on a paused
loop, `start` spawns a (second) driver and flips the status to
`running`. -/
theorem C9_counterexample :
    (loopStart ⟨.paused, none, false, false⟩).driver_spawned = true ∧
    (loopStart ⟨.paused, none, false, false⟩).state.status = .running := by
  constructor <;> rfl

/-- C9 (amended): `start` is a no-op (no driver spawned, no state change,
no event) exactly when the status is `running`; in any other status —
`stopped` or `paused` — it initialises the workspace, spawns the driver,
sets the status to `running` (clearing the error and the stop flag) and
emits the `loop:cycle` started event. -/
theorem C9_start_amended (s : LoopStartState) :
    (s.status = .running → loopStart s = ⟨s, false, false, []⟩) ∧
    (s.status ≠ .running →
      loopStart s =
        ⟨{ status := .running, error := none,
           stop_event_set := false, pause_event_set := true },
          true, true, [("loop:cycle", "started")]⟩) := by
  constructor
  · intro h
    unfold loopStart
    rw [if_pos h]
  · intro h
    unfold loopStart
    rw [if_neg h]

/-- Witness for C9: starting from `stopped` spawns the driver and sets
`running`; starting a running loop changes nothing. -/
theorem C9_start_amended_witness :
    loopStart ⟨.stopped, none, true, false⟩ =
      ⟨{ status := .running, error := none,
         stop_event_set := false, pause_event_set := true },
        true, true, [("loop:cycle", "started")]⟩ ∧
    loopStart ⟨.running, none, false, true⟩ =
      ⟨⟨.running, none, false, true⟩, false, false, []⟩ :=
  ⟨(C9_start_amended ⟨.stopped, none, true, false⟩).2 (by decide),
    (C9_start_amended ⟨.running, none, false, true⟩).1 rfl⟩

end Hackathon0
